import Mathlib

/-!
Shallow embedding of the named-binary archive pair
(`include/cereal/archives/named_binary.hpp`): the writer's frame stack
(`NamedBinaryOutputArchive` with `saveBinary`, `finishNode`, `addNode`,
`setNextName`) and the reader's primitive read (`NamedBinaryInputArchive`
with `loadBinary`).

Byte streams are `List Nat` (each entry one byte value).  Names are kept
as their byte sequences.  The underlying stringstream sinks always accept
every byte offered, as an in-memory `std::stringstream` does, so the
short-write exception paths of the C++ are reachable in the model only
where the C++ itself can reach them (the `min`-truncated payload write in
`finishNode`); a thrown exception is modelled as `none` / `Except.error`.
-/

namespace NamedBinary

/-- A byte sequence: each element is one byte value. -/
abbrev Bytes := List Nat

/-- `NamedBinaryOutputArchive::NamedValue_t`: one open node of the frame
stack.  `itsStream` is the accumulated contents of the node's
stringstream buffer, `itsSize` the C++ `itsSize` field, `itsName` the
bytes of `itsName`. -/
structure NamedValue_t where
  itsStream : Bytes
  itsSize : Nat
  itsName : Bytes
deriving Repr, DecidableEq

/-- `NamedBinaryOutputArchive`: pending-name slot `nextName`, the node
stack `itsNodes` (head of the list is the top of the `std::stack`), and
the bytes emitted so far to the output stream `itsStream`. -/
structure NamedBinaryOutputArchive where
  nextName : Bytes
  itsNodes : List NamedValue_t
  itsStream : Bytes
deriving Repr, DecidableEq

/-- A freshly constructed output archive: empty pending name, empty node
stack, nothing yet written to the sink. -/
def emptyOut : NamedBinaryOutputArchive :=
  { nextName := [], itsNodes := [], itsStream := [] }

/-- `NamedBinaryOutputArchive::saveBinary(data, size)` with
`size = data.length`: overwrites the top node's `itsName` with the
pending `nextName`, clears `nextName`, appends `data` to the node's
stringstream buffer via `sputn`, and assigns (not increments) the byte
count returned by `sputn` to `itsSize`.  An in-memory stringstream
accepts all bytes, so `sputn` returns `data.length` and the short-write
exception does not fire.  Calling with an empty node stack
(`itsNodes.top()` on an empty `std::stack`) is undefined in C++ and is
modelled as `none`. -/
def saveBinary (ar : NamedBinaryOutputArchive) (data : Bytes) :
    Option NamedBinaryOutputArchive :=
  match ar.itsNodes with
  | [] => none
  | node :: rest =>
      some { nextName := []
             itsNodes := { itsStream := node.itsStream ++ data
                           itsSize := data.length
                           itsName := ar.nextName } :: rest
             itsStream := ar.itsStream }

/-- The byte-emission loop of `finishNode` for one 8-byte length field:
`for (i = 0; i < 8; ++i) itsStream.put((v >> 8*i) & 0xF);`.  Note the
source masks with `0xF`, keeping only the low nibble of each shifted
value.  The C++ values are 64-bit, hence the `% 2 ^ 64`. -/
def encodeLenField (v : Nat) : Bytes :=
  (List.range 8).map (fun i => ((v % 2 ^ 64) >>> (8 * i)) &&& 0xF)

/-- Follows the spec's words (§4.3), for comparison with
`encodeLenField`: a fixed-width, 8-byte, little-endian unsigned integer
in which byte `i` holds bits `[8*i, 8*i+8)` of the value, each byte
carrying its full 0-255 range. -/
def specLenFieldLE (v : Nat) : Bytes :=
  (List.range 8).map (fun i => ((v % 2 ^ 64) >>> (8 * i)) % 256)

/-- `NamedBinaryOutputArchive::finishNode()`: pops the top node.  If its
`itsSize` is `0` the node is discarded with no output.  Otherwise it
computes `totalSize = itsSize + itsName.size() + sizeof(std::size_t)`
(`sizeof(std::size_t) = 8`), emits `totalSize`, the name length, the
name bytes and `itsSize` through the nibble-masked length loops, then
writes `min(buffer.size(), itsSize)` bytes of the buffer and throws if
that written count differs from `itsSize` (the header and truncated
payload have been emitted by then; the model collapses the throw to
`none`).  Popping an empty stack is undefined in C++, modelled `none`. -/
def finishNode (ar : NamedBinaryOutputArchive) :
    Option NamedBinaryOutputArchive :=
  match ar.itsNodes with
  | [] => none
  | node :: rest =>
      if node.itsSize = 0 then
        some { ar with itsNodes := rest }
      else
        let totalSize := node.itsSize + node.itsName.length + 8
        let payload := node.itsStream.take (min node.itsStream.length node.itsSize)
        if payload.length = node.itsSize then
          some { ar with
                 itsNodes := rest
                 itsStream := ar.itsStream
                   ++ encodeLenField totalSize
                   ++ encodeLenField node.itsName.length
                   ++ node.itsName
                   ++ encodeLenField node.itsSize
                   ++ payload }
        else none

/-- `NamedBinaryOutputArchive::addNode()`: pushes a blank node
(`itsSize = 0`, empty buffer, empty name). -/
def addNode (ar : NamedBinaryOutputArchive) : NamedBinaryOutputArchive :=
  { ar with itsNodes := { itsStream := [], itsSize := 0, itsName := [] } :: ar.itsNodes }

/-- `NamedBinaryOutputArchive::setNextName(name)`: stores `name` in the
pending-name slot. -/
def setNextName (ar : NamedBinaryOutputArchive) (name : Bytes) :
    NamedBinaryOutputArchive :=
  { ar with nextName := name }

/-- `NamedBinaryInputArchive::loadBinary(data, size)`: `sgetn` pulls
`min(size, available)` bytes from the input stream; the archive throws
if that count differs from `size`.  The input stream is the remaining
byte list; success returns the bytes read and the rest of the stream,
failure returns the requested and actual byte counts carried by the
exception message. -/
def loadBinary (stream : Bytes) (size : Nat) :
    Except (Nat × Nat) (Bytes × Bytes) :=
  let readSize := (stream.take size).length
  if readSize = size then
    Except.ok (stream.take size, stream.drop size)
  else
    Except.error (size, readSize)

end NamedBinary

namespace NamedBinary

/-- C1: the claim asserts that reading back, via `loadBinary`, the same
sequence of primitive sizes that was written via `saveBinary` from the
produced stream yields bit-identical values.  Evaluating the code at the
failing input: writing the single byte 42 through one node
(`addNode`; `saveBinary [42]`; `finishNode`) produces a stream that
begins with 24 framing-header bytes, and the mirrored one-byte
`loadBinary` returns the byte 9 (the least-significant byte of the
`totalLength` field), not the written byte 42. -/
theorem C1_roundtrip_fails_eval :
    ((saveBinary (addNode emptyOut) [42]).bind finishNode).map
        NamedBinaryOutputArchive.itsStream
      = some [9, 0, 0, 0, 0, 0, 0, 0, 0, 0, 0, 0, 0, 0, 0, 0,
              1, 0, 0, 0, 0, 0, 0, 0, 42] ∧
    loadBinary [9, 0, 0, 0, 0, 0, 0, 0, 0, 0, 0, 0, 0, 0, 0, 0,
                1, 0, 0, 0, 0, 0, 0, 0, 42] 1
      = Except.ok ([9], [0, 0, 0, 0, 0, 0, 0, 0, 0, 0, 0, 0, 0, 0, 0,
                         1, 0, 0, 0, 0, 0, 0, 0, 42]) ∧
    (9 : Nat) ≠ 42 :=
  ⟨rfl, rfl, by decide⟩

/-- C2: the claim asserts that each length field is emitted as 8
little-endian bytes each carrying the full bits `[8*i, 8*i+8)` of the
value.  Evaluating the code at the failing input: a node with 8 payload
bytes and an empty name has `totalLength = 16`, and the emitted
`totalLength` field is eight zero bytes (the source masks each shifted
value with `0xF`, keeping only the low nibble), whereas the claimed
codec `specLenFieldLE` emits `[16, 0, 0, 0, 0, 0, 0, 0]`. -/
theorem C2_lenfield_nibble_bug_eval :
    ((saveBinary (addNode emptyOut) [1, 2, 3, 4, 5, 6, 7, 8]).bind finishNode).map
        NamedBinaryOutputArchive.itsStream
      = some [0, 0, 0, 0, 0, 0, 0, 0, 0, 0, 0, 0, 0, 0, 0, 0,
              8, 0, 0, 0, 0, 0, 0, 0, 1, 2, 3, 4, 5, 6, 7, 8] ∧
    specLenFieldLE 16 = [16, 0, 0, 0, 0, 0, 0, 0] ∧
    encodeLenField 16 ≠ specLenFieldLE 16 :=
  ⟨rfl, rfl, by decide⟩

/-- C3 counterexample: writing the 4 bytes of 42 named "x" (byte 120)
through one node produces a stream whose `totalLength` field encodes 13,
not 20: the produced bytes differ from the claimed wire bytes
`specLenFieldLE 20 ++ specLenFieldLE 1 ++ [120] ++ specLenFieldLE 4 ++
[42, 0, 0, 0]` at the very first byte. -/
theorem C3_counterexample :
    ((saveBinary (setNextName (addNode emptyOut) [120]) [42, 0, 0, 0]).bind
        finishNode).map NamedBinaryOutputArchive.itsStream
      = some [13, 0, 0, 0, 0, 0, 0, 0, 1, 0, 0, 0, 0, 0, 0, 0, 120,
              4, 0, 0, 0, 0, 0, 0, 0, 42, 0, 0, 0] ∧
    some [13, 0, 0, 0, 0, 0, 0, 0, 1, 0, 0, 0, 0, 0, 0, 0, 120,
          4, 0, 0, 0, 0, 0, 0, 0, 42, 0, 0, 0]
      ≠ some (specLenFieldLE 20 ++ specLenFieldLE 1 ++ [120]
              ++ specLenFieldLE 4 ++ [42, 0, 0, 0]) :=
  ⟨rfl, by decide⟩

/-- C3 amended: writing one 4-byte integer value 42 (payload bytes
`[42, 0, 0, 0]`) named "x" (byte 120) at the top level produces exactly
the wire bytes: `totalLength` encoded as 13 (4 payload + 1 name + 8),
then `nameLength` encoded as 1, the name byte, `payloadLength` encoded
as 4, then the 4 raw payload bytes; each length field's emitted bytes
here coincide with the little-endian codec of §4.3 because all three
values are below 16. -/
theorem C3_amended_scenario :
    ((saveBinary (setNextName (addNode emptyOut) [120]) [42, 0, 0, 0]).bind
        finishNode).map NamedBinaryOutputArchive.itsStream
      = some (specLenFieldLE 13 ++ specLenFieldLE 1 ++ [120]
              ++ specLenFieldLE 4 ++ [42, 0, 0, 0]) := by
  decide

/-- C4 counterexample: two consecutive writes of 4 then 2 bytes into the
same node leave the node's `itsSize` at 2 — the size of the most recent
write — not the running total 6, and it decreased from 4, refuting
monotonicity. -/
theorem C4_counterexample :
    ((saveBinary (addNode emptyOut) [1, 2, 3, 4]).bind
        (fun a => saveBinary a [5, 6])).map
        (fun a => a.itsNodes.map NamedValue_t.itsSize)
      = some [2] ∧ (2 : Nat) ≠ 4 + 2 ∧ ¬ (4 : Nat) ≤ 2 := by
  decide

/-- C4 amended: each successful `saveBinary` call assigns the node's
`itsSize` to the byte count of that call alone, while the node's buffer
still accumulates all bytes written; across two writes into the same
node, `itsSize` equals the size of the most recent write. -/
theorem C4_amended_lastWriteSize (ar : NamedBinaryOutputArchive)
    (node : NamedValue_t) (rest : List NamedValue_t) (data1 data2 : Bytes)
    (h : ar.itsNodes = node :: rest) :
    ∃ node2 : NamedValue_t,
      (saveBinary ar data1).bind (fun a => saveBinary a data2)
        = some { nextName := [], itsNodes := node2 :: rest,
                 itsStream := ar.itsStream }
      ∧ node2.itsSize = data2.length
      ∧ node2.itsStream = node.itsStream ++ data1 ++ data2 := by
  refine ⟨{ itsStream := node.itsStream ++ data1 ++ data2,
            itsSize := data2.length, itsName := [] }, ?_, rfl, rfl⟩
  unfold saveBinary
  rw [h]
  simp [List.append_assoc]

/-- Witness for C4's amended theorem at a concrete input. -/
theorem C4_amended_lastWriteSize_witness :
    ∃ node2 : NamedValue_t,
      (saveBinary { nextName := [], itsNodes := [{ itsStream := [], itsSize := 0, itsName := [] }], itsStream := [] } [1, 2, 3, 4]).bind
          (fun a => saveBinary a [5, 6])
        = some { nextName := [], itsNodes := [node2], itsStream := [] }
      ∧ node2.itsSize = ([5, 6] : Bytes).length
      ∧ node2.itsStream = ([] : Bytes) ++ [1, 2, 3, 4] ++ [5, 6] :=
  C4_amended_lastWriteSize
    { nextName := [], itsNodes := [{ itsStream := [], itsSize := 0, itsName := [] }], itsStream := [] }
    { itsStream := [], itsSize := 0, itsName := [] } [] [1, 2, 3, 4] [5, 6] rfl

/-- C5 counterexample: after `setNextName "x"` and a first write, a
second write into the same node overwrites the node's name with the
(now empty) pending slot: the node's name ends up `[]`, not the name
`[120]` bound at the first write, refuting "assigned exactly once at the
first write and not overwritten by subsequent writes". -/
theorem C5_counterexample :
    ((saveBinary (setNextName (addNode emptyOut) [120]) [7]).bind
        (fun a => saveBinary a [8])).map
        (fun a => a.itsNodes.map NamedValue_t.itsName)
      = some [[]] ∧ ([] : Bytes) ≠ [120] := by
  decide

/-- C5 amended: every `saveBinary` call overwrites the top node's name
with the current pending name and clears the pending slot, so the name
equals whatever was pending at the most recent write; a node that is
never written keeps the empty name it was created with by `addNode`. -/
theorem C5_amended_nameOverwrittenEachWrite (ar : NamedBinaryOutputArchive)
    (node : NamedValue_t) (rest : List NamedValue_t) (data : Bytes)
    (h : ar.itsNodes = node :: rest) :
    (∃ node2 : NamedValue_t,
        saveBinary ar data
          = some { nextName := [], itsNodes := node2 :: rest,
                   itsStream := ar.itsStream }
        ∧ node2.itsName = ar.nextName)
    ∧ (addNode ar).itsNodes.head?
        = some { itsStream := [], itsSize := 0, itsName := [] } := by
  constructor
  · refine ⟨{ itsStream := node.itsStream ++ data, itsSize := data.length,
              itsName := ar.nextName }, ?_, rfl⟩
    unfold saveBinary
    rw [h]
  · rfl

/-- Witness for C5's amended theorem at a concrete input. -/
theorem C5_amended_nameOverwrittenEachWrite_witness :
    (∃ node2 : NamedValue_t,
        saveBinary { nextName := [120], itsNodes := [{ itsStream := [], itsSize := 0, itsName := [] }], itsStream := [] } [7]
          = some { nextName := [], itsNodes := [node2], itsStream := [] }
        ∧ node2.itsName = ([120] : Bytes))
    ∧ (addNode { nextName := [120], itsNodes := [{ itsStream := [], itsSize := 0, itsName := [] }], itsStream := ([] : Bytes) }).itsNodes.head?
        = some { itsStream := [], itsSize := 0, itsName := [] } :=
  C5_amended_nameOverwrittenEachWrite
    { nextName := [120], itsNodes := [{ itsStream := [], itsSize := 0, itsName := [] }], itsStream := [] }
    { itsStream := [], itsSize := 0, itsName := [] } [] [7] rfl

end NamedBinary

namespace NamedBinary

/-- C6: for every emitted Framed Record, the value encoded in the
`totalLength` field equals the number of payload bytes actually emitted
plus the number of name bytes emitted plus 8 (the width of the
`payloadLength` field): `finishNode` on a non-empty, non-truncating node
appends exactly `totalLength` = `payload.length + name.length + 8`,
`nameLength`, the name bytes, `payloadLength`, and the payload bytes. -/
theorem C6_totalLength (ar : NamedBinaryOutputArchive) (node : NamedValue_t)
    (rest : List NamedValue_t) (h : ar.itsNodes = node :: rest)
    (h0 : node.itsSize ≠ 0) (hle : node.itsSize ≤ node.itsStream.length) :
    ∃ payload : Bytes,
      finishNode ar
        = some { nextName := ar.nextName, itsNodes := rest,
                 itsStream := ar.itsStream
                   ++ encodeLenField (payload.length + node.itsName.length + 8)
                   ++ encodeLenField node.itsName.length
                   ++ node.itsName
                   ++ encodeLenField payload.length
                   ++ payload }
      ∧ payload.length = node.itsSize := by
  have hmin : min node.itsStream.length node.itsSize = node.itsSize :=
    Nat.min_eq_right hle
  have hlen : (node.itsStream.take node.itsSize).length = node.itsSize := by
    rw [List.length_take]
    exact Nat.min_eq_left hle
  refine ⟨node.itsStream.take node.itsSize, ?_, hlen⟩
  unfold finishNode
  rw [h]
  simp [h0, hmin, hlen]

/-- Witness for C6 at a concrete archive. -/
theorem C6_totalLength_witness :
    ∃ payload : Bytes,
      finishNode { nextName := [7], itsNodes := [{ itsStream := [5, 6], itsSize := 2, itsName := [120] }], itsStream := [3] }
        = some { nextName := [7], itsNodes := [],
                 itsStream := ([3] : Bytes)
                   ++ encodeLenField (payload.length + ([120] : Bytes).length + 8)
                   ++ encodeLenField ([120] : Bytes).length
                   ++ [120]
                   ++ encodeLenField payload.length
                   ++ payload }
      ∧ payload.length = 2 :=
  C6_totalLength
    { nextName := [7], itsNodes := [{ itsStream := [5, 6], itsSize := 2, itsName := [120] }], itsStream := [3] }
    { itsStream := [5, 6], itsSize := 2, itsName := [120] } [] rfl
    (by decide) (by decide)

/-- C7: a node whose `itsSize` is 0 at `finishNode` is popped with zero
bytes of wire output, and a second, freshly pushed empty sibling ended
right afterwards also produces zero bytes: the archive's emitted stream
is unchanged through both pops. -/
theorem C7_elision (ar : NamedBinaryOutputArchive) (node : NamedValue_t)
    (rest : List NamedValue_t) (h : ar.itsNodes = node :: rest)
    (h0 : node.itsSize = 0) :
    finishNode ar
      = some { nextName := ar.nextName, itsNodes := rest,
               itsStream := ar.itsStream }
    ∧ (finishNode ar).bind (fun a => finishNode (addNode a))
      = some { nextName := ar.nextName, itsNodes := rest,
               itsStream := ar.itsStream } := by
  have h1 : finishNode ar
      = some { nextName := ar.nextName, itsNodes := rest,
               itsStream := ar.itsStream } := by
    unfold finishNode
    rw [h]
    simp [h0]
  refine ⟨h1, ?_⟩
  rw [h1]
  simp [finishNode, addNode]

/-- Witness for C7 at a concrete archive. -/
theorem C7_elision_witness :
    finishNode { nextName := [9], itsNodes := [{ itsStream := [4, 4], itsSize := 0, itsName := [120] }, { itsStream := [1], itsSize := 1, itsName := [] }], itsStream := [8] }
      = some { nextName := [9], itsNodes := [{ itsStream := [1], itsSize := 1, itsName := [] }], itsStream := [8] }
    ∧ (finishNode { nextName := [9], itsNodes := [{ itsStream := [4, 4], itsSize := 0, itsName := [120] }, { itsStream := [1], itsSize := 1, itsName := [] }], itsStream := [8] }).bind
        (fun a => finishNode (addNode a))
      = some { nextName := [9], itsNodes := [{ itsStream := [1], itsSize := 1, itsName := [] }], itsStream := [8] } :=
  C7_elision
    { nextName := [9], itsNodes := [{ itsStream := [4, 4], itsSize := 0, itsName := [120] }, { itsStream := [1], itsSize := 1, itsName := [] }], itsStream := [8] }
    { itsStream := [4, 4], itsSize := 0, itsName := [120] }
    [{ itsStream := [1], itsSize := 1, itsName := [] }] rfl rfl

/-- C8: after `setNextName n1` then `setNextName n2` with no intervening
write, the next `saveBinary` binds `n2` (the second name) to the node
and clears the pending slot, so a further `saveBinary` with no new
`setNextName` binds the empty name. -/
theorem C8_pendingName (ar : NamedBinaryOutputArchive) (node : NamedValue_t)
    (rest : List NamedValue_t) (n1 n2 data data2 : Bytes)
    (h : ar.itsNodes = node :: rest) :
    ∃ node2 node3 : NamedValue_t,
      saveBinary (setNextName (setNextName ar n1) n2) data
        = some { nextName := [], itsNodes := node2 :: rest,
                 itsStream := ar.itsStream }
      ∧ node2.itsName = n2
      ∧ saveBinary { nextName := [], itsNodes := node2 :: rest, itsStream := ar.itsStream } data2
        = some { nextName := [], itsNodes := node3 :: rest,
                 itsStream := ar.itsStream }
      ∧ node3.itsName = [] := by
  refine ⟨{ itsStream := node.itsStream ++ data, itsSize := data.length, itsName := n2 },
          { itsStream := node.itsStream ++ data ++ data2, itsSize := data2.length, itsName := [] },
          ?_, rfl, ?_, rfl⟩
  · unfold saveBinary setNextName
    rw [h]
  · rfl

/-- Witness for C8 at a concrete archive. -/
theorem C8_pendingName_witness :
    ∃ node2 node3 : NamedValue_t,
      saveBinary (setNextName (setNextName { nextName := [], itsNodes := [{ itsStream := [], itsSize := 0, itsName := [] }], itsStream := [] } [97]) [98]) [1]
        = some { nextName := [], itsNodes := [node2], itsStream := ([] : Bytes) }
      ∧ node2.itsName = ([98] : Bytes)
      ∧ saveBinary { nextName := [], itsNodes := [node2], itsStream := ([] : Bytes) } [2]
        = some { nextName := [], itsNodes := [node3], itsStream := ([] : Bytes) }
      ∧ node3.itsName = [] :=
  C8_pendingName
    { nextName := [], itsNodes := [{ itsStream := [], itsSize := 0, itsName := [] }], itsStream := [] }
    { itsStream := [], itsSize := 0, itsName := [] } [] [97] [98] [1] [2] rfl

/-- C9: `loadBinary` succeeds exactly when at least `size` bytes remain,
returning precisely the first `size` bytes of the stream (a list of
length `size`) and the rest; when fewer than `size` bytes remain it
fails with an error carrying the requested count and the actual count
available. -/
theorem C9_shortRead (stream : Bytes) (size : Nat) :
    (size ≤ stream.length →
        loadBinary stream size
          = Except.ok (stream.take size, stream.drop size)
        ∧ (stream.take size).length = size)
    ∧ (stream.length < size →
        loadBinary stream size = Except.error (size, stream.length)) := by
  constructor
  · intro hle
    have hlen : (stream.take size).length = size := by
      rw [List.length_take]
      exact Nat.min_eq_left hle
    exact ⟨by unfold loadBinary; simp [hlen], hlen⟩
  · intro hlt
    have hlen : (stream.take size).length = stream.length := by
      rw [List.length_take]
      exact Nat.min_eq_right (Nat.le_of_lt hlt)
    unfold loadBinary
    simp [hlen, Nat.ne_of_lt hlt]

/-- Witness for C9: a successful exact read and a failing short read at
concrete inputs. -/
theorem C9_shortRead_witness :
    loadBinary [1, 2, 3] 2 = Except.ok ([1, 2], [3])
    ∧ loadBinary [1, 2, 3] 5 = Except.error (5, 3) :=
  ⟨((C9_shortRead [1, 2, 3] 2).1 (by decide)).1,
   (C9_shortRead [1, 2, 3] 5).2 (by decide)⟩

/-- C10: elision is decided solely by `itsSize = 0`: a node with a
non-zero `itsSize` and a never-bound (empty) name still gets a full
Framed Record, with a `nameLength` field encoding 0 and zero name bytes
between the `nameLength` field and the `payloadLength` field. -/
theorem C10_emptyNameStillFramed (ar : NamedBinaryOutputArchive)
    (node : NamedValue_t) (rest : List NamedValue_t)
    (h : ar.itsNodes = node :: rest) (hname : node.itsName = [])
    (h0 : node.itsSize ≠ 0) (hle : node.itsSize ≤ node.itsStream.length) :
    finishNode ar
      = some { nextName := ar.nextName, itsNodes := rest,
               itsStream := ar.itsStream
                 ++ encodeLenField (node.itsSize + 8)
                 ++ encodeLenField 0
                 ++ encodeLenField node.itsSize
                 ++ node.itsStream.take node.itsSize } := by
  have hmin : min node.itsStream.length node.itsSize = node.itsSize :=
    Nat.min_eq_right hle
  have hlen : (node.itsStream.take node.itsSize).length = node.itsSize := by
    rw [List.length_take]
    exact Nat.min_eq_left hle
  unfold finishNode
  rw [h]
  simp [h0, hname, hmin, hlen]

/-- Witness for C10 at a concrete archive. -/
theorem C10_emptyNameStillFramed_witness :
    finishNode { nextName := [5], itsNodes := [{ itsStream := [1, 2, 3], itsSize := 3, itsName := [] }], itsStream := [9] }
      = some { nextName := [5], itsNodes := [],
               itsStream := ([9] : Bytes)
                 ++ encodeLenField (3 + 8)
                 ++ encodeLenField 0
                 ++ encodeLenField 3
                 ++ ([1, 2, 3] : Bytes).take 3 } :=
  C10_emptyNameStillFramed
    { nextName := [5], itsNodes := [{ itsStream := [1, 2, 3], itsSize := 3, itsName := [] }], itsStream := [9] }
    { itsStream := [1, 2, 3], itsSize := 3, itsName := [] } [] rfl rfl
    (by decide) (by decide)

end NamedBinary
